import Mathlib

/-!
Verification of the git-squash-py core against its specification.

This file gives a shallow embedding, in Lean 4, of the parts of the
repository that the specification's claims are about:

* `src/git_squash/core/analyzer.py` — the `MessageFormatter` class
  (`wrap_text`, `format_commit_message`);
* `src/git_squash/tool.py` — `prepare_squash_plan`, `execute_squash_plan`,
  `_process_commits`, `_split_day_commits`, `_generate_summary_with_retry`;
* `src/git_squash/core/cache.py` — summary/plan key generation,
  `get_plan`, `set_plan`, `invalidate_plan`;
* `src/git_squash/core/config.py` and `src/git_squash/core/types.py` —
  the data model used by the above.

Python strings are modelled as Lean `String` (a list of unicode code
points, matching Python's code-point semantics for `len`, slicing and
comparison).  The Python string methods used by the source are given
explicit executable definitions (`py_strip`, `py_split_lines`, ...)
because the corresponding Lean core functions are implemented on byte
positions and do not reduce inside the kernel.

External collaborators (the git process wrapper and the AI summary
backend) are modelled as explicit environments of pure functions, and
the `ChangeAnalysis` produced by the analyzer is kept as an opaque type
parameter `A`: no claim inspects its contents, so every theorem below
holds for the real analyzer instantiation.

The SHA-256 digest used by the cache key derivation is kept abstract as
a function parameter `H : String → String` (modelling `hexdigest`); the
deterministic construction of the digested key string is modelled
exactly.
-/

namespace GitSquash

/-! ## Python string primitives (code-point semantics) -/

/-- Python `s.strip()`: remove leading and trailing whitespace. -/
def py_strip (s : String) : String :=
  ⟨((s.data.dropWhile Char.isWhitespace).reverse.dropWhile Char.isWhitespace).reverse⟩

/-- Python `s.split('\n')`: split at every newline, keeping empty pieces. -/
def py_split_lines (s : String) : List String :=
  (s.data.splitOn '\n').map fun l => ⟨l⟩

/-- Python `s.split()` with no argument: whitespace-separated words,
with runs of whitespace collapsed and edge whitespace ignored. -/
def py_words (s : String) : List String :=
  ((s.data.splitOnP fun c => c.isWhitespace).map fun l => (⟨l⟩ : String)).filter
    fun w => w != ""

/-- Python `s[:n]` for `0 ≤ n`. -/
def py_take (s : String) (n : Nat) : String := ⟨s.data.take n⟩

/-- Python `s[n:]` for `0 ≤ n`. -/
def py_drop (s : String) (n : Nat) : String := ⟨s.data.drop n⟩

/-- Python `s[:-n]` (drop the last `n` characters, clamped at empty). -/
def py_drop_right (s : String) (n : Nat) : String := ⟨s.data.take (s.data.length - n)⟩

/-- Python `s[:k]` for an arbitrary (possibly negative) integer `k`,
as produced by expressions like `subject[:limit-3]`. -/
def py_slice_to (s : String) (k : Int) : String :=
  if 0 ≤ k then py_take s k.toNat else py_drop_right s (-k).toNat

/-- Python `s.startswith(p)`. -/
def py_startswith (s p : String) : Bool := p.data.isPrefixOf s.data

/-- Python `s.endswith(p)`. -/
def py_endswith (s p : String) : Bool := p.data.isSuffixOf s.data

/-- Python `s.upper()` (restricted to the one-character-to-one-character
case mapping, which is all the source applies it to). -/
def py_upper (s : String) : String := ⟨s.data.map Char.toUpper⟩

/-- Lexicographic comparison of character lists by code point. -/
def py_chars_lt : List Char → List Char → Bool
  | [], [] => false
  | [], _ :: _ => true
  | _ :: _, [] => false
  | a :: as, b :: bs => if a < b then true else if b < a then false else py_chars_lt as bs

/-- Python `s < t` on strings (lexicographic by code point). -/
def py_str_lt (s t : String) : Bool := py_chars_lt s.data t.data

/-- Python `s <= t` on strings. -/
def py_str_le (s t : String) : Bool := !(py_str_lt t s)

/-! ## Data model (`core/types.py`, `core/config.py`) -/

/-- The `CommitInfo` dataclass from `core/types.py`.  The parsed
timestamp is modelled as a `Nat` (only its ordering is ever used). -/
structure CommitInfo where
  hash : String
  date : String
  subject : String
  author_name : String
  author_email : String
  datetime : Nat
deriving DecidableEq, Inhabited

/-- The `GitSquashConfig` dataclass from `core/config.py`, restricted to
the fields consumed by the operations modelled in this file (the split
thresholds and branch-name fields are not read by any of them). -/
structure GitSquashConfig where
  subject_line_limit : Nat := 96
  body_line_width : Nat := 96
  total_message_limit : Nat := 1500
  max_retry_attempts : Nat := 3
  model : String := "claude-3-7-sonnet-20250219"
deriving DecidableEq, Inhabited

/-- A `GitSquashConfig` with all defaults, as built by `GitSquashConfig()`. -/
def default_config : GitSquashConfig := {}

/-- The numeric checks performed by `GitSquashConfig.__post_init__` on
the fields modelled here. -/
def config_valid (cfg : GitSquashConfig) : Bool :=
  decide (0 < cfg.total_message_limit) &&
  decide (0 < cfg.subject_line_limit) &&
  decide (0 < cfg.body_line_width) &&
  decide (cfg.subject_line_limit ≤ cfg.total_message_limit) &&
  decide (0 < cfg.max_retry_attempts) &&
  decide (cfg.max_retry_attempts ≤ 10)

/-- The `SquashPlanItem` dataclass.  `A` is the opaque type of the
`ChangeAnalysis` payload. -/
structure SquashPlanItem (A : Type) where
  date : String
  commits : List CommitInfo
  summary : String
  part : Option Nat := none
  analysis : Option A := none
deriving DecidableEq

/-- Property `SquashPlanItem.end_hash`: hash of the last commit. -/
def SquashPlanItem.item_end_hash {A : Type} (it : SquashPlanItem A) : String :=
  match it.commits.getLast? with
  | some c => c.hash
  | none => ""

/-- Property `SquashPlanItem.author_info`: `(name, email, date)` of the
first commit. -/
def SquashPlanItem.item_author_info {A : Type} (it : SquashPlanItem A) :
    String × String × String :=
  match it.commits.head? with
  | some c => (c.author_name, c.author_email, c.date)
  | none => ("", "", "")

/-- The `SquashPlan` dataclass. -/
structure SquashPlan (A : Type) where
  items : List (SquashPlanItem A)
  total_original_commits : Nat
  config : GitSquashConfig
deriving DecidableEq

/-! ## Message formatter (`core/analyzer.py`, class `MessageFormatter`)

`wrap_text` is decomposed into three definitions mirroring its three
nested loops: `wrap_words` is the inner `for word in words[1:]` loop
together with the trailing `if current: lines.append(current)`;
`wrap_line` is the body of the outer `for line in text.split('\n')`
loop; `wrap_text` is the outer loop itself. -/

/-- Inner word-wrapping loop of `MessageFormatter.wrap_text`.  `cont` is
the string new continuation lines start from (`indent + '  '` in the
bullet branch, `indent` in the plain branch); `current` is the line
being accumulated. -/
def wrap_words (width : Nat) (cont : String) : String → List String → List String
  | current, [] => if current == "" then [] else [current]
  | current, w :: ws =>
    if (current ++ " " ++ w).length ≤ width then
      wrap_words width cont (current ++ " " ++ w) ws
    else
      current :: wrap_words width cont (cont ++ w) ws

/-- Body of the per-line loop of `MessageFormatter.wrap_text`. -/
def wrap_line (width : Nat) (indent : String) (line : String) : List String :=
  if py_strip line == "" then [""]
  else
    let stripped := py_strip line
    if py_startswith stripped "- " || py_startswith stripped "* " ||
        py_startswith stripped "• " then
      let bullet := py_take stripped 2
      let content := py_strip (py_drop stripped 2)
      let first_line := indent ++ bullet ++ " " ++ content
      if first_line.length ≤ width then [first_line]
      else
        match py_words content with
        | [] => []
        | w :: ws => wrap_words width (indent ++ "  ") (indent ++ bullet ++ " " ++ w) ws
    else
      let line_content := indent ++ stripped
      if line_content.length ≤ width then [line_content]
      else
        match py_words stripped with
        | [] => []
        | w :: ws => wrap_words width indent (indent ++ w) ws

/-- `MessageFormatter.wrap_text(text, width, indent="")`. -/
def wrap_text (text : String) (width : Nat) (indent : String) : List String :=
  (py_split_lines text).flatMap (wrap_line width indent)

/-- The subject-line processing block of
`MessageFormatter.format_commit_message` (capitalize the first letter,
strip one trailing period, truncate to `subject_line_limit` with an
ellipsis). -/
def format_subject (cfg : GitSquashConfig) (first_line : String) : String :=
  let subject := py_strip first_line
  if subject == "" then subject
  else
    let subject :=
      if subject.length > 1 then py_upper (py_take subject 1) ++ py_drop subject 1
      else py_upper subject
    let subject := if py_endswith subject "." then py_slice_to subject (-1) else subject
    if subject.length > cfg.subject_line_limit then
      py_slice_to subject ((cfg.subject_line_limit : Int) - 3) ++ "..."
    else subject

/-- The `while result and not result[-1]: result.pop()` cleanup at the
end of `format_commit_message`. -/
def drop_trailing_blanks (l : List String) : List String :=
  (l.reverse.dropWhile fun s => s == "").reverse

/-- `MessageFormatter.format_commit_message`, as the list of lines it
joins with newlines. -/
def format_commit_message_lines (cfg : GitSquashConfig) (raw_message : String) :
    List String :=
  let lines := py_split_lines raw_message
  match lines with
  | [] => [raw_message]
  | l0 :: _ =>
    let subject := format_subject cfg l0
    if lines.length < 3 then [subject]
    else
      let body_lines :=
        if decide (lines.length > 2) && (py_strip (lines.getD 1 "") == "") then
          lines.drop 2
        else lines.drop 1
      let formatted_body := body_lines.flatMap fun line =>
        if py_strip line == "" then [""] else wrap_text line cfg.body_line_width ""
      drop_trailing_blanks (subject :: "" :: formatted_body)

/-- `MessageFormatter.format_commit_message`. -/
def format_commit_message (cfg : GitSquashConfig) (raw_message : String) : String :=
  String.intercalate "\n" (format_commit_message_lines cfg raw_message)

/-! ## The squash tool (`tool.py`) -/

/-- The collaborators of `GitSquashTool`, as pure functions.  `get_diff`
models `GitOperations.get_diff`; `analyze` models the composite
`GitSquashTool._analyze_commits` (a pure function of the commit batch
through the git diff and `DiffAnalyzer.analyze_changes`), whose output
type `A` is opaque because no modelled operation inspects it;
`generate_summary` models `AIClient.generate_summary`, with arguments
`(date, analysis, commit_subjects, diff_content, attempt,
previous_summary, commits)` exactly as passed at the call site. -/
structure ToolEnv (A : Type) where
  get_diff : String → String → String
  analyze : List CommitInfo → A
  generate_summary :
    String → A → List String → String → Nat → Option String → List CommitInfo → String

/-- Errors raised by the modelled `tool.py` entry points.
`name_error_depth` models the Python `NameError` raised inside
`_split_day_commits` when it evaluates the undefined variable `depth`
(see `_split_day_commits` below). -/
inductive ToolError where
  | invalid_date_range (msg : String)
  | no_commits (msg : String)
  | name_error_depth
deriving DecidableEq

/-- The generation callback used by `_generate_summary_with_retry` for a
fixed date and commit batch: attempt number and previous summary vary
across the retry loop, everything else is computed once before it. -/
def summary_gen {A : Type} (env : ToolEnv A) (date : String)
    (commits : List CommitInfo) : Nat → Option String → String :=
  fun attempt prev =>
    env.generate_summary date (env.analyze commits) (commits.map (·.subject))
      (env.get_diff (commits.headI.hash) ((commits.getLastD default).hash))
      attempt prev commits

/-- The `for attempt in range(1, max_retry_attempts + 1)` loop of
`_generate_summary_with_retry`.  Besides the loop's result (the running
`summary` variable, `none` until the first call) it returns, as a ghost
trace, the list of messages produced by the generation port, in call
order. -/
def retry_go (gen : Nat → Option String → String) (limit : Nat) :
    Nat → Nat → Option String → Option String × List String
  | 0, _, prev => (prev, [])
  | fuel + 1, attempt, prev =>
    let s := gen attempt prev
    if s.length ≤ limit then (some s, [s])
    else
      let r := retry_go gen limit fuel (attempt + 1) (some s)
      (r.1, s :: r.2)

/-- `GitSquashTool._generate_summary_with_retry` with its ghost call
trace. -/
def generate_summary_with_retry_trace {A : Type} (env : ToolEnv A)
    (cfg : GitSquashConfig) (date : String) (commits : List CommitInfo) :
    Option String × List String :=
  retry_go (summary_gen env date commits) cfg.total_message_limit
    cfg.max_retry_attempts 1 none

/-- `GitSquashTool._generate_summary_with_retry`.  The result is `none`
only when `max_retry_attempts = 0`, which `GitSquashConfig` validation
rejects (Python would then return `None` and crash at the caller's
`len(summary)`); the caller below reads it with a `""` default. -/
def generate_summary_with_retry {A : Type} (env : ToolEnv A) (cfg : GitSquashConfig)
    (date : String) (commits : List CommitInfo) : Option String :=
  (generate_summary_with_retry_trace env cfg date commits).1

/-- `MAX_RECURSION_DEPTH` from `_process_commits`. -/
def MAX_RECURSION_DEPTH : Nat := 10

/-- The truncation loop in the single-commit branch of
`_split_day_commits` (`for line in lines[2:]: ...` with its running
`char_count`). -/
def trunc_loop (limit : Nat) : List String → Nat → List String → List String
  | [], _, acc => acc
  | line :: rest, char_count, acc =>
    if char_count + line.length + 1 > limit - 20 then acc ++ ["- ...additional changes"]
    else trunc_loop limit rest (char_count + line.length + 1) (acc ++ [line])

/-- `GitSquashTool._split_day_commits`.

The single-commit branch is translated in full.  For every other length
the Python source evaluates `depth + 1` (lines 321–322) although
`_split_day_commits` has no `depth` parameter and no such local,
enclosing or global variable exists, so CPython raises
`NameError: name 'depth' is not defined` before any recursive call;
that branch is therefore modelled as `ToolError.name_error_depth`
(which also makes the part-numbering loop at lines 325–328 dead code). -/
def split_day_commits {A : Type} (env : ToolEnv A) (cfg : GitSquashConfig)
    (date : String) (commits : List CommitInfo) :
    Except ToolError (List (SquashPlanItem A)) :=
  if commits.length = 1 then
    let summary := (generate_summary_with_retry env cfg date commits).getD ""
    let analysis := env.analyze commits
    let summary :=
      if summary.length > cfg.total_message_limit then
        let lines := py_split_lines summary
        let truncated :=
          if lines.isEmpty then ["Update " ++ date, ""] else [lines.headI, ""]
        let char_count := (String.intercalate "\n" truncated).length
        let body := if lines.length > 2 then lines.drop 2 else []
        String.intercalate "\n" (trunc_loop cfg.total_message_limit body char_count truncated)
      else summary
    .ok [{ date := date, commits := commits, summary := summary,
           analysis := some analysis }]
  else
    .error .name_error_depth

/-- `GitSquashTool._process_commits`. -/
def process_commits {A : Type} (env : ToolEnv A) (cfg : GitSquashConfig)
    (date : String) (commits : List CommitInfo) (depth : Nat) :
    Except ToolError (List (SquashPlanItem A)) :=
  if depth > MAX_RECURSION_DEPTH then
    .ok [{ date := date, commits := commits,
           summary := "Update " ++ date ++ " (" ++ toString commits.length ++ " commits)",
           analysis := some (env.analyze commits) }]
  else if commits.length ≤ 1 then
    let summary := (generate_summary_with_retry env cfg date commits).getD ""
    .ok [{ date := date, commits := commits, summary := summary,
           analysis := some (env.analyze commits) }]
  else
    let summary := (generate_summary_with_retry env cfg date commits).getD ""
    if summary.length ≤ cfg.total_message_limit then
      .ok [{ date := date, commits := commits, summary := summary,
             analysis := some (env.analyze commits) }]
    else
      split_day_commits env cfg date commits

/-- The date-range filter of `prepare_squash_plan` (lines 40–49):
a date group is kept iff neither `date < start_date` nor
`date > end_date` holds for the bounds that are present. -/
def filter_commits_by_date (start_date end_date : Option String)
    (commits_by_date : List (String × List CommitInfo)) :
    List (String × List CommitInfo) :=
  commits_by_date.filter fun g =>
    (match start_date with
     | some s => !(py_str_lt g.1 s)
     | none => true) &&
    (match end_date with
     | some e => !(py_str_lt e g.1)
     | none => true)

/-- The groups remaining after the (conditional) date filtering step of
`prepare_squash_plan`. -/
def effective_groups (start_date end_date : Option String)
    (commits_by_date : List (String × List CommitInfo)) :
    List (String × List CommitInfo) :=
  if start_date.isSome || end_date.isSome then
    filter_commits_by_date start_date end_date commits_by_date
  else commits_by_date

/-- The `for date in sorted(commits_by_date.keys())` loop of
`prepare_squash_plan` (non-combine path): process each group and
concatenate the items. -/
def process_groups {A : Type} (env : ToolEnv A) (cfg : GitSquashConfig) :
    List (String × List CommitInfo) → Except ToolError (List (SquashPlanItem A))
  | [] => .ok []
  | g :: rest =>
    match process_commits env cfg g.1 g.2 0 with
    | .error e => .error e
    | .ok day_items =>
      match process_groups env cfg rest with
      | .error e => .error e
      | .ok rest_items => .ok (day_items ++ rest_items)

/-- Comparison used by `all_commits.sort(key=lambda c: c.datetime)`. -/
def commit_le (a b : CommitInfo) : Bool := a.datetime ≤ b.datetime

/-- Comparison of date groups by date key, modelling
`sorted(commits_by_date.keys())` followed by dictionary lookup (the
keys of the association list are unique, as they are for the dict). -/
def group_le (a b : String × List CommitInfo) : Bool := py_str_le a.1 b.1

/-- `GitSquashTool.prepare_squash_plan`.

`commits_by_date` is the output of
`GitOperations.get_commits_by_date(start_commit=base_branch)`, as an
association list in dict insertion order.  The whole-plan cache lookup
(lines 67–78, guarded by `hasattr(self.ai_client, 'cache')`) is not
modelled: this definition is the cache-miss / cache-less generation
path. -/
def prepare_squash_plan {A : Type} (env : ToolEnv A) (cfg : GitSquashConfig)
    (start_date end_date : Option String) (combine : Bool)
    (commits_by_date : List (String × List CommitInfo)) :
    Except ToolError (SquashPlan A) :=
  let groups := effective_groups start_date end_date commits_by_date
  if (start_date.isSome || end_date.isSome) && groups.isEmpty then
    .error (.invalid_date_range ("No commits found between " ++
      start_date.getD "beginning" ++ " and " ++ end_date.getD "HEAD"))
  else if groups.isEmpty then
    .error (.no_commits "No commits found to squash")
  else
    let all_commits := groups.flatMap (·.2)
    let total_commits := groups.foldl (fun acc g => acc + g.2.length) 0
    if combine then
      let all_sorted := List.mergeSort all_commits commit_le
      let dates := List.mergeSort (groups.map (·.1)) py_str_le
      let combined_date :=
        if dates.length = 1 then dates.headI
        else dates.headI ++ " to " ++ dates.getLastD ""
      match process_commits env cfg combined_date all_sorted 0 with
      | .error e => .error e
      | .ok items =>
        .ok { items := items, total_original_commits := total_commits, config := cfg }
    else
      match process_groups env cfg (List.mergeSort groups group_le) with
      | .error e => .error e
      | .ok items =>
        .ok { items := items, total_original_commits := total_commits, config := cfg }

/-! ## The squash executor (`tool.py`, `execute_squash_plan`) -/

/-- Environment for `execute_squash_plan`, capturing the git queries it
makes: `parent_of_first` is the result of
`rev-parse <first_commit>^` (`none` when the original first commit is a
repository root); `is_ancestor_of_base p` is the result of
`merge-base --is-ancestor p <base_head>`; `base_head` is the resolved
base branch tip; `tree_of` is `get_tree_hash`; `new_commit_id i` is the
hash git assigns to the `i`-th commit created by `create_commit`. -/
structure ExecEnv where
  parent_of_first : Option String
  is_ancestor_of_base : String → Bool
  base_head : String
  tree_of : String → String
  new_commit_id : Nat → String

/-- A commit object created by `GitOperations.create_commit` during plan
execution, with the arguments it was created from. -/
structure CreatedCommit where
  id : String
  message : String
  tree : String
  parent_hash : String
  author_name : String
  author_email : String
  author_date : String
deriving DecidableEq, Inhabited

/-- The parent chosen for the first created commit (the
`current_parent is None` branch of the loop, lines 176–208): reuse the
original parent when it exists and is an ancestor of the base head,
otherwise the base head. -/
def first_parent (env : ExecEnv) : String :=
  match env.parent_of_first with
  | some p => if env.is_ancestor_of_base p then p else env.base_head
  | none => env.base_head

/-- The `for i, item in enumerate(plan.items)` loop of
`execute_squash_plan`: each iteration creates one commit whose parent is
the running `current_parent`, then advances `current_parent` to the new
commit. -/
def exec_loop {A : Type} (env : ExecEnv) :
    List (SquashPlanItem A) → String → Nat → List CreatedCommit
  | [], _, _ => []
  | item :: rest, parent, i =>
    let info := item.item_author_info
    let c : CreatedCommit :=
      { id := env.new_commit_id i, message := item.summary,
        tree := env.tree_of item.item_end_hash, parent_hash := parent,
        author_name := info.1, author_email := info.2.1, author_date := info.2.2 }
    c :: exec_loop env rest c.id (i + 1)

/-- `GitSquashTool.execute_squash_plan`, as the sequence of commits it
creates (the backup branch, target-branch creation and reset steps only
change branch pointers and do not affect the created chain; with an
empty item list Python crashes at `plan.items[0]` before creating
anything). -/
def execute_squash_plan {A : Type} (env : ExecEnv) (plan : SquashPlan A) :
    List CreatedCommit :=
  exec_loop env plan.items (first_parent env) 0

/-! ## The cache (`core/cache.py`)

`H : String → String` abstracts `hashlib.sha256(...).hexdigest()`; the
construction of the strings fed to it is modelled exactly. -/

/-- `_generate_summary_key`: the `key_string` joined from `key_parts`
(date label, first three commit hashes, total count, diff and config
hash prefixes). -/
def generate_summary_key_string (date : String) (commit_hashes : List String)
    (diff_hash config_hash : String) : String :=
  String.intercalate "|"
    ["summary", date, String.intercalate "-" (commit_hashes.take 3),
     "n" ++ toString commit_hashes.length, py_take diff_hash 8, py_take config_hash 8]

/-- `_generate_summary_key`: digest of the key string, truncated to 16
characters. -/
def generate_summary_key (H : String → String) (date : String)
    (commit_hashes : List String) (diff_hash config_hash : String) : String :=
  py_take (H (generate_summary_key_string date commit_hashes diff_hash config_hash)) 16

/-- `_generate_plan_key`. -/
def generate_plan_key (H : String → String) (start_date end_date : Option String)
    (commit_count : Nat) (first_hash last_hash config_hash : String) : String :=
  py_take (H (String.intercalate "|"
    ["plan", start_date.getD "begin", end_date.getD "head",
     "n" ++ toString commit_count, py_take first_hash 8, py_take last_hash 8,
     py_take config_hash 8])) 16

/-- The sorted-keys JSON rendering of the config fields hashed by
`_hash_config`. -/
def config_json_string (cfg : GitSquashConfig) : String :=
  "\x7b\"body_line_width\": " ++ toString cfg.body_line_width ++
  ", \"model\": \"" ++ cfg.model ++
  "\", \"subject_line_limit\": " ++ toString cfg.subject_line_limit ++
  ", \"total_message_limit\": " ++ toString cfg.total_message_limit ++ "\x7d"

/-- `_hash_config`. -/
def hash_config (H : String → String) (cfg : GitSquashConfig) : String :=
  H (config_json_string cfg)

/-- One serialized item of a cached plan (the dictionaries built by
`set_plan`). -/
structure PlanItemData where
  date : String
  commit_count : Nat
  summary : String
  part : Option Nat
  commit_hashes : List String
deriving DecidableEq

/-- The serialized plan stored as a plan-cache value. -/
structure PlanData where
  total_original_commits : Nat
  items : List PlanItemData
deriving DecidableEq

/-- A `CacheEntry` holding a serialized plan.  Timestamps are `Nat`;
`is_expired` is `now > expires_at`. -/
structure PlanCacheEntry where
  key : String
  value : PlanData
  created_at : Nat
  expires_at : Nat
  context_hash : String
deriving DecidableEq

/-- A `CacheEntry` holding a summary string. -/
structure SummaryCacheEntry where
  key : String
  value : String
  created_at : Nat
  expires_at : Nat
  context_hash : String
deriving DecidableEq

/-- The in-memory state of `GitSquashCache`: the two tables
`_summary_cache` and `_plan_cache`, as association lists in dict
insertion order (keys unique). -/
structure CacheState where
  summary_entries : List (String × SummaryCacheEntry)
  plan_entries : List (String × PlanCacheEntry)
deriving DecidableEq

/-- Dictionary lookup in an association list. -/
def lookup_entry {β : Type} (l : List (String × β)) (key : String) : Option β :=
  (l.find? fun kv => kv.1 == key).map (·.2)

/-- Dictionary assignment `d[key] = v`: replace the entry if the key is
present, otherwise append it. -/
def dict_set {β : Type} (l : List (String × β)) (key : String) (v : β) :
    List (String × β) :=
  if l.any fun kv => kv.1 == key then
    l.map fun kv => if kv.1 == key then (key, v) else kv
  else l ++ [(key, v)]

/-- The serialization of a plan performed by `set_plan` (lines 444–456). -/
def serialize_plan {A : Type} (plan : SquashPlan A) : PlanData :=
  { total_original_commits := plan.total_original_commits,
    items := plan.items.map fun it =>
      { date := it.date, commit_count := it.commits.length, summary := it.summary,
        part := it.part, commit_hashes := it.commits.map (·.hash) } }

/-- `GitSquashCache.get_plan`. -/
def get_plan (H : String → String) (cache : CacheState) (now : Nat)
    (start_date end_date : Option String) (all_commits : List CommitInfo)
    (cfg : GitSquashConfig) : Option PlanData :=
  if all_commits.isEmpty then none
  else
    let key := generate_plan_key H start_date end_date all_commits.length
      all_commits.headI.hash (all_commits.getLastD default).hash (hash_config H cfg)
    match lookup_entry cache.plan_entries key with
    | some entry => if !(now > entry.expires_at) then some entry.value else none
    | none => none

/-- `GitSquashCache.set_plan`.  The boolean records whether
`_persist_caches` ran (the early `return` on an empty commit list skips
both the table mutation and persistence). -/
def set_plan {A : Type} (H : String → String) (cache : CacheState)
    (now ttl : Nat) (start_date end_date : Option String)
    (all_commits : List CommitInfo) (cfg : GitSquashConfig) (plan : SquashPlan A) :
    CacheState × Bool :=
  if all_commits.isEmpty then (cache, false)
  else
    let config_hash := hash_config H cfg
    let key := generate_plan_key H start_date end_date all_commits.length
      all_commits.headI.hash (all_commits.getLastD default).hash config_hash
    let entry : PlanCacheEntry :=
      { key := key, value := serialize_plan plan, created_at := now,
        expires_at := now + ttl, context_hash := config_hash }
    ({ cache with plan_entries := dict_set cache.plan_entries key entry }, true)

/-- The hash set `commits_in_plan` built by `invalidate_plan`. -/
def commits_in_plan {A : Type} (plan : SquashPlan A) : List String :=
  plan.items.flatMap fun it => it.commits.map (·.hash)

/-- Whether a cached plan entry shares a commit hash with the executed
plan (the inner loop of `invalidate_plan`). -/
def entry_overlaps {A : Type} (plan : SquashPlan A) (entry : PlanCacheEntry) : Bool :=
  entry.value.items.any fun item =>
    item.commit_hashes.any fun h => (commits_in_plan plan).contains h

/-- `GitSquashCache.invalidate_plan`.  The boolean records whether
`_persist_caches` ran (it runs iff some key was removed). -/
def invalidate_plan {A : Type} (cache : CacheState) (plan : SquashPlan A) :
    CacheState × Bool :=
  let keys_to_remove :=
    (cache.plan_entries.filter fun kv => entry_overlaps plan kv.2).map (·.1)
  ({ cache with
      plan_entries := cache.plan_entries.filter fun kv => !keys_to_remove.contains kv.1 },
   !keys_to_remove.isEmpty)

/-! ## Concrete fixtures used to instantiate the theorems below -/

/-- A sample commit. -/
def commit_a : CommitInfo :=
  { hash := "aaaa1111", date := "2024-01-01T10:00:00+00:00", subject := "add one",
    author_name := "Al", author_email := "al@example.com", datetime := 1 }

/-- A second sample commit, same day as `commit_a`, later. -/
def commit_b : CommitInfo :=
  { hash := "bbbb2222", date := "2024-01-01T11:00:00+00:00", subject := "fix two",
    author_name := "Bo", author_email := "bo@example.com", datetime := 2 }

/-- A third sample commit, on the following day. -/
def commit_c : CommitInfo :=
  { hash := "cccc3333", date := "2024-01-02T09:00:00+00:00", subject := "docs",
    author_name := "Cy", author_email := "cy@example.com", datetime := 3 }

/-- A small but valid configuration (keeps concrete evaluation cheap). -/
def cfg_small : GitSquashConfig :=
  { subject_line_limit := 3, body_line_width := 3, total_message_limit := 4,
    max_retry_attempts := 3, model := "m" }

/-- A valid configuration with a narrow body width. -/
def cfg_narrow : GitSquashConfig :=
  { subject_line_limit := 5, body_line_width := 5, total_message_limit := 50,
    max_retry_attempts := 3, model := "m" }

/-- An environment whose generation port always fits the budget. -/
def env_short : ToolEnv Unit :=
  { get_diff := fun _ _ => "", analyze := fun _ => (),
    generate_summary := fun _ _ _ _ _ _ _ => "m" }

/-- An environment whose generation port always returns a message longer
than `cfg_small.total_message_limit`. -/
def env_long : ToolEnv Unit :=
  { get_diff := fun _ _ => "", analyze := fun _ => (),
    generate_summary := fun _ _ _ _ _ _ _ => "longmsg" }

/-- An environment whose generation port is over-length on attempt 1 and
fits from attempt 2 on. -/
def env_retry : ToolEnv Unit :=
  { get_diff := fun _ _ => "", analyze := fun _ => (),
    generate_summary := fun _ _ _ _ attempt _ _ =>
      if attempt = 1 then "xxxxxx" else "ok" }

/-- A concrete executor environment whose ancestor check fails. -/
def exec_env_w : ExecEnv :=
  { parent_of_first := some "p0", is_ancestor_of_base := fun _ => false,
    base_head := "basehead", tree_of := fun h => "tree-" ++ h,
    new_commit_id := fun i => "new" ++ toString i }

/-- A concrete two-item plan. -/
def plan_w : SquashPlan Unit :=
  { items :=
      [{ date := "2024-01-01", commits := [commit_a, commit_b], summary := "s1" },
       { date := "2024-01-02", commits := [commit_c], summary := "s2" }],
    total_original_commits := 3, config := cfg_small }

/-- A one-item plan containing only `commit_a`, used as the executed
plan for cache invalidation. -/
def plan_only_a : SquashPlan Unit :=
  { items := [{ date := "2024-01-01", commits := [commit_a], summary := "sa" }],
    total_original_commits := 1, config := cfg_small }

/-- A cached plan value referencing `commit_a`. -/
def plan_data_a : PlanData :=
  { total_original_commits := 1,
    items := [{ date := "2024-01-01", commit_count := 1, summary := "sa",
                part := none, commit_hashes := ["aaaa1111"] }] }

/-- A cached plan value referencing only `commit_c`. -/
def plan_data_c : PlanData :=
  { total_original_commits := 1,
    items := [{ date := "2024-01-02", commit_count := 1, summary := "sc",
                part := none, commit_hashes := ["cccc3333"] }] }

/-- The non-overlapping cache entry of `cache_w`. -/
def entry_k2 : String × PlanCacheEntry :=
  ("k2", { key := "k2", value := plan_data_c, created_at := 0, expires_at := 10,
           context_hash := "ch" })

/-- A concrete cache with one entry overlapping `plan_only_a` and one
disjoint from it. -/
def cache_w : CacheState :=
  { summary_entries := [],
    plan_entries :=
      [("k1", { key := "k1", value := plan_data_a, created_at := 0, expires_at := 10,
                context_hash := "ch" }),
       entry_k2] }

/-- Commit groups keyed by date, already in ascending date order. -/
def cbd_w : List (String × List CommitInfo) :=
  [("2024-01-01", [commit_a]), ("2024-01-02", [commit_c])]

/-- The plan `prepare_squash_plan` produces from `cbd_w` under
`env_short` and `cfg_small` with no filter and `combine = false`. -/
def plan_prep : SquashPlan Unit :=
  { items :=
      [{ date := "2024-01-01", commits := [commit_a], summary := "m",
         analysis := some () },
       { date := "2024-01-02", commits := [commit_c], summary := "m",
         analysis := some () }],
    total_original_commits := 2, config := cfg_small }

/-- Whether a `prepare_squash_plan` outcome is the `NoCommitsFoundError`
(with any message). -/
def is_no_commits_error {A : Type} : Except ToolError (SquashPlan A) → Bool
  | .error (.no_commits _) => true
  | _ => false

/-- Whether a `prepare_squash_plan` outcome is the
`InvalidDateRangeError` (with any message). -/
def is_invalid_date_range_error {A : Type} : Except ToolError (SquashPlan A) → Bool
  | .error (.invalid_date_range _) => true
  | _ => false

/-! ## General-purpose lemmas -/

/-- In an association list with pairwise-distinct keys, two members with
the same key are the same pair. -/
theorem eq_of_mem_of_nodup_keys {β : Type} :
    ∀ {l : List (String × β)}, (l.map Prod.fst).Nodup →
    ∀ {x y : String × β}, x ∈ l → y ∈ l → x.1 = y.1 → x = y := by
  intro l
  induction l with
  | nil => intro _ x y hx; cases hx
  | cons a tl ih =>
    intro hnd x y hx hy hk
    rw [List.map_cons, List.nodup_cons] at hnd
    rcases List.mem_cons.1 hx with rfl | hx' <;>
      rcases List.mem_cons.1 hy with rfl | hy'
    · rfl
    · exact absurd (hk ▸ List.mem_map_of_mem Prod.fst hy') hnd.1
    · exact absurd (hk ▸ List.mem_map_of_mem Prod.fst hx') hnd.1
    · exact ih hnd.2 hx' hy' hk

/-! ## Claim C10 -/

/-- C10: called with an empty commit list, `get_plan` returns `none`
whatever the state of the plan table, and `set_plan` leaves both cache
tables unchanged and does not persist anything. -/
theorem empty_commits_cache_noop {A : Type} (H : String → String) (cache : CacheState)
    (now ttl : Nat) (sd ed : Option String) (cfg : GitSquashConfig)
    (plan : SquashPlan A) :
    get_plan H cache now sd ed [] cfg = none ∧
    set_plan H cache now ttl sd ed [] cfg plan = (cache, false) :=
  ⟨rfl, rfl⟩

/-! ## Claim C6 -/

/-- C6: after `invalidate_plan`, no surviving plan-cache entry stores a
commit hash of the executed plan, and every entry with no overlap is
retained (keys are unique, as they are for a Python dict). -/
theorem invalidate_plan_contract {A : Type} (cache : CacheState) (plan : SquashPlan A)
    (hnd : (cache.plan_entries.map Prod.fst).Nodup) :
    (∀ kv ∈ (invalidate_plan cache plan).1.plan_entries,
        ∀ item ∈ kv.2.value.items, ∀ h ∈ item.commit_hashes,
          h ∉ commits_in_plan plan) ∧
    (∀ kv ∈ cache.plan_entries,
        (∀ item ∈ kv.2.value.items, ∀ h ∈ item.commit_hashes,
          h ∉ commits_in_plan plan) →
        kv ∈ (invalidate_plan cache plan).1.plan_entries) := by
  have hoverlap : ∀ kv : String × PlanCacheEntry,
      entry_overlaps plan kv.2 = true ↔
      ∃ item ∈ kv.2.value.items, ∃ h ∈ item.commit_hashes, h ∈ commits_in_plan plan := by
    intro kv
    simp [entry_overlaps, List.any_eq_true, List.contains_eq_any_beq, beq_iff_eq]
  constructor
  · intro kv hkv item hitem h hmem hin
    rw [invalidate_plan, List.mem_filter] at hkv
    have hov : entry_overlaps plan kv.2 = true :=
      (hoverlap kv).2 ⟨item, hitem, h, hmem, hin⟩
    have hkey : kv.1 ∈ ((cache.plan_entries.filter fun kv =>
        entry_overlaps plan kv.2).map (·.1)) :=
      List.mem_map_of_mem _ (List.mem_filter.2 ⟨hkv.1, hov⟩)
    have := hkv.2
    rw [Bool.not_eq_eq_eq_not, Bool.not_true, ← Bool.not_eq_true,
      List.contains_eq_any_beq, List.any_eq_true] at this
    exact this ⟨kv.1, hkey, by simp⟩
  · intro kv hkv hno
    rw [invalidate_plan, List.mem_filter]
    refine ⟨hkv, ?_⟩
    rw [Bool.not_eq_eq_eq_not, Bool.not_true, ← Bool.not_eq_true,
      List.contains_eq_any_beq, List.any_eq_true]
    rintro ⟨k, hkmem, hbeq⟩
    rw [beq_iff_eq] at hbeq
    rcases List.mem_map.1 hkmem with ⟨kv', hkv', hkeq⟩
    rcases List.mem_filter.1 hkv' with ⟨hkv'mem, hov⟩
    have : kv' = kv := eq_of_mem_of_nodup_keys hnd hkv'mem hkv (hkeq.trans hbeq.symm)
    subst this
    rcases (hoverlap kv').1 hov with ⟨item, hitem, h, hmem, hin⟩
    exact hno item hitem h hmem hin

/-- Witness for C6 at a concrete cache: the overlapping entry `k1` is
removed and the disjoint entry `k2` is retained. -/
theorem invalidate_plan_contract_witness :
    (∀ kv ∈ (invalidate_plan cache_w plan_only_a).1.plan_entries,
        ∀ item ∈ kv.2.value.items, ∀ h ∈ item.commit_hashes,
          h ∉ commits_in_plan plan_only_a) ∧
    entry_k2 ∈ (invalidate_plan cache_w plan_only_a).1.plan_entries := by
  have hc := invalidate_plan_contract cache_w plan_only_a (by decide)
  refine ⟨hc.1, hc.2 _ (by decide) ?_⟩
  decide

/-! ## Claim C2 -/

/-- Each run of the creation loop yields one commit per plan item. -/
theorem exec_loop_length {A : Type} (env : ExecEnv) :
    ∀ (items : List (SquashPlanItem A)) (parent : String) (i : Nat),
    (exec_loop env items parent i).length = items.length := by
  intro items
  induction items with
  | nil => intro parent i; rfl
  | cons it rest ih => intro parent i; simp [exec_loop, ih]

/-- The first commit created by the loop has the parent it was started
with. -/
theorem exec_loop_head_parent {A : Type} (env : ExecEnv)
    (items : List (SquashPlanItem A)) (parent : String) (i : Nat)
    (hne : items ≠ []) :
    (exec_loop env items parent i).headI.parent_hash = parent := by
  cases items with
  | nil => exact absurd rfl hne
  | cons it rest => rfl

/-- Each commit created by the loop after the first has the previous
created commit as its parent. -/
theorem exec_loop_chain {A : Type} (env : ExecEnv) :
    ∀ (items : List (SquashPlanItem A)) (parent : String) (i j : Nat),
    j + 1 < (exec_loop env items parent i).length →
    ((exec_loop env items parent i).getD (j + 1) default).parent_hash =
      ((exec_loop env items parent i).getD j default).id := by
  intro items
  induction items with
  | nil => intro parent i j hj; simp [exec_loop] at hj
  | cons it rest ih =>
    intro parent i j hj
    rw [exec_loop_length] at hj
    cases j with
    | zero =>
      cases rest with
      | nil => simp at hj
      | cons it2 rest2 => simp [exec_loop]
    | succ k =>
      have := ih (env.new_commit_id i) (i + 1) k
        (by rw [exec_loop_length]; simp only [List.length_cons] at hj; omega)
      simpa [exec_loop] using this

/-- C2: when a plan is executed, the parent of the first created commit
is the original first commit's parent when that parent exists and is an
ancestor of the resolved base head, and the base head otherwise (also
when the original first commit was a root); every later created commit
has the immediately preceding created commit as its parent. -/
theorem execute_plan_parent_chain {A : Type} (env : ExecEnv) (plan : SquashPlan A) :
    (execute_squash_plan env plan).length = plan.items.length ∧
    (plan.items ≠ [] →
      (execute_squash_plan env plan).headI.parent_hash =
        match env.parent_of_first with
        | some p => if env.is_ancestor_of_base p then p else env.base_head
        | none => env.base_head) ∧
    (∀ i, i + 1 < (execute_squash_plan env plan).length →
      ((execute_squash_plan env plan).getD (i + 1) default).parent_hash =
        ((execute_squash_plan env plan).getD i default).id) := by
  refine ⟨exec_loop_length env plan.items (first_parent env) 0, ?_, ?_⟩
  · intro hne
    exact exec_loop_head_parent env plan.items (first_parent env) 0 hne
  · intro i hi
    exact exec_loop_chain env plan.items (first_parent env) 0 i hi

/-- Witness for C2 on a concrete plan and environment: the original
parent exists but is not an ancestor of the base head, so the first
created commit is parented to the base head, and the second created
commit is parented to the first. -/
theorem execute_plan_parent_chain_witness :
    (execute_squash_plan exec_env_w plan_w).headI.parent_hash = "basehead" ∧
    ((execute_squash_plan exec_env_w plan_w).getD 1 default).parent_hash =
      ((execute_squash_plan exec_env_w plan_w).getD 0 default).id := by
  have hc := execute_plan_parent_chain exec_env_w plan_w
  exact ⟨hc.2.1 (by decide), hc.2.2 0 (by decide)⟩

/-! ## Claim C4 -/

/-- Full characterization of the retry loop `retry_go`: it makes at most
`fuel` calls; the `i`-th call (numbered from `attempt`) receives the
previous call's result as `previous_summary` (the incoming `prev` for
the first); every result except possibly the last exceeded the limit;
the loop's result is the last call's result unmodified (the incoming
`prev` when no call was allowed); and the loop stops early only when the
last result fits. -/
theorem retry_go_spec (gen : Nat → Option String → String) (limit : Nat) :
    ∀ (fuel attempt : Nat) (prev : Option String),
    (retry_go gen limit fuel attempt prev).2.length ≤ fuel ∧
    (fuel ≠ 0 → (retry_go gen limit fuel attempt prev).2 ≠ []) ∧
    (∀ i, i < (retry_go gen limit fuel attempt prev).2.length →
      (retry_go gen limit fuel attempt prev).2.getD i "" = gen (attempt + i)
        (if i = 0 then prev
         else some ((retry_go gen limit fuel attempt prev).2.getD (i - 1) ""))) ∧
    (∀ i, i + 1 < (retry_go gen limit fuel attempt prev).2.length →
      limit < ((retry_go gen limit fuel attempt prev).2.getD i "").length) ∧
    ((retry_go gen limit fuel attempt prev).1 =
      match (retry_go gen limit fuel attempt prev).2 with
      | [] => prev
      | _ :: _ => (retry_go gen limit fuel attempt prev).2.getLast?) ∧
    (((retry_go gen limit fuel attempt prev).2.getLastD "").length ≤ limit ∨
      (retry_go gen limit fuel attempt prev).2.length = fuel) := by
  intro fuel
  induction fuel with
  | zero =>
    intro attempt prev
    refine ⟨Nat.le_refl 0, fun h => absurd rfl h, ?_, ?_, rfl, Or.inl ?_⟩
    · intro i hi; simp [retry_go] at hi
    · intro i hi; simp [retry_go] at hi
    · simp [retry_go, List.getLastD]
  | succ fuel ih =>
    intro attempt prev
    by_cases hfit : (gen attempt prev).length ≤ limit
    · have hout : retry_go gen limit (fuel + 1) attempt prev =
          (some (gen attempt prev), [gen attempt prev]) := by
        rw [retry_go]; simp [hfit]
      rw [hout]
      refine ⟨by simp, fun _ => by simp, ?_, ?_, by simp, Or.inl ?_⟩
      · intro i hi
        simp only [List.length_cons, List.length_nil] at hi
        interval_cases i
        simp
      · intro i hi
        simp only [List.length_cons, List.length_nil] at hi
        omega
      · simpa [List.getLastD] using hfit
    · obtain ⟨ih1, ih2, ih3, ih4, ih5, ih6⟩ := ih (attempt + 1) (some (gen attempt prev))
      have hout : retry_go gen limit (fuel + 1) attempt prev =
          ((retry_go gen limit fuel (attempt + 1) (some (gen attempt prev))).1,
           gen attempt prev ::
             (retry_go gen limit fuel (attempt + 1) (some (gen attempt prev))).2) := by
        rw [retry_go]; simp [hfit]
      rw [hout]
      set r := retry_go gen limit fuel (attempt + 1) (some (gen attempt prev)) with hr
      refine ⟨by simpa using ih1, fun _ => by simp, ?_, ?_, ?_, ?_⟩
      · intro i hi
        cases i with
        | zero => simp
        | succ k =>
          simp only [List.getD_cons_succ]
          simp only [List.length_cons] at hi
          have h3 := ih3 k (by omega)
          rw [h3]
          cases k with
          | zero => simp [Nat.add_comm, Nat.add_assoc, Nat.add_left_comm]
          | succ m =>
            simp only [List.getD_cons_succ, Nat.add_sub_cancel]
            have : attempt + 1 + (m + 1) = attempt + (m + 1 + 1) := by omega
            rw [this]
            simp
      · intro i hi
        cases i with
        | zero =>
          simpa using Nat.lt_of_not_le hfit
        | succ k =>
          simp only [List.length_cons] at hi
          simpa using ih4 k (by omega)
      · cases hrl : r.2 with
        | nil => rw [hrl] at ih5; simpa using ih5
        | cons x xs =>
          rw [hrl] at ih5
          simp only [ih5]
          rw [List.getLast?_cons_cons]
      · cases hrl : r.2 with
        | nil =>
          right
          have hf0 : fuel = 0 := by
            by_contra hf
            exact ih2 hf hrl
          simp [hf0]
        | cons x xs =>
          rcases ih6 with h | h
          · left
            rw [hrl] at h
            simpa [List.getLastD_eq_getLast?, List.getLast?_cons_cons] using h
          · right
            rw [hrl] at h
            simp only [List.length_cons] at h ⊢
            omega

/-- C4: for every batch, the retry loop calls the generation port at
most `max_retry_attempts` times; call `i + 1` receives the previous
over-long result as `previous_summary` (`none` on the first call); it
stops at the first result within `total_message_limit` (every earlier
result exceeded it); and the value returned is the last generated result
unmodified — in particular the loop itself never truncates, and when all
attempts are exhausted the last over-long result is returned as is. -/
theorem generate_summary_retry_contract {A : Type} (env : ToolEnv A)
    (cfg : GitSquashConfig) (date : String) (commits : List CommitInfo) :
    (generate_summary_with_retry_trace env cfg date commits).2.length ≤
      cfg.max_retry_attempts ∧
    (∀ i, i < (generate_summary_with_retry_trace env cfg date commits).2.length →
      (generate_summary_with_retry_trace env cfg date commits).2.getD i "" =
        summary_gen env date commits (i + 1)
          (if i = 0 then none
           else some ((generate_summary_with_retry_trace env cfg date commits).2.getD
             (i - 1) ""))) ∧
    (∀ i, i + 1 < (generate_summary_with_retry_trace env cfg date commits).2.length →
      cfg.total_message_limit <
        ((generate_summary_with_retry_trace env cfg date commits).2.getD i "").length) ∧
    (generate_summary_with_retry env cfg date commits =
      (generate_summary_with_retry_trace env cfg date commits).2.getLast?) ∧
    (((generate_summary_with_retry_trace env cfg date commits).2.getLastD "").length ≤
        cfg.total_message_limit ∨
      (generate_summary_with_retry_trace env cfg date commits).2.length =
        cfg.max_retry_attempts) := by
  obtain ⟨h1, _, h3, h4, h5, h6⟩ := retry_go_spec (summary_gen env date commits)
    cfg.total_message_limit cfg.max_retry_attempts 1 none
  refine ⟨h1, ?_, h4, ?_, h6⟩
  · intro i hi
    have := h3 i hi
    rwa [Nat.add_comm 1 i] at this
  · rw [generate_summary_with_retry, generate_summary_with_retry_trace] at *
    rw [h5]
    cases (retry_go (summary_gen env date commits) cfg.total_message_limit
        cfg.max_retry_attempts 1 none).2 with
    | nil => rfl
    | cons x xs => rfl

/-- Witness for C4 on a concrete run whose first attempt is over-long
and whose second fits: two calls were made, the second received the
first result as `previous_summary`, the first result exceeded the limit,
and the loop returned the last result. -/
theorem generate_summary_retry_contract_witness :
    (generate_summary_with_retry_trace env_retry cfg_small "d" [commit_a]).2.length ≤
      cfg_small.max_retry_attempts ∧
    (generate_summary_with_retry_trace env_retry cfg_small "d" [commit_a]).2.getD 1 "" =
      summary_gen env_retry "d" [commit_a] 2
        (some ((generate_summary_with_retry_trace env_retry cfg_small "d"
          [commit_a]).2.getD 0 "")) ∧
    cfg_small.total_message_limit <
      ((generate_summary_with_retry_trace env_retry cfg_small "d"
        [commit_a]).2.getD 0 "").length ∧
    generate_summary_with_retry env_retry cfg_small "d" [commit_a] =
      (generate_summary_with_retry_trace env_retry cfg_small "d" [commit_a]).2.getLast? := by
  have hc := generate_summary_retry_contract env_retry cfg_small "d" [commit_a]
  refine ⟨hc.1, ?_, hc.2.2.1 0 (by decide), hc.2.2.2.1⟩
  have h2 := hc.2.1 1 (by decide)
  simpa using h2

/-! ## Claim C3 -/

/-- C3 (evaluation at the failing input): with a valid configuration and
a generation port that always returns an over-length message, processing
a two-commit batch reaches the splitting path and fails with the
`NameError` on the unbound `depth` variable instead of recursing — both
directly in `_split_day_commits` and through `_process_commits` at depth
0 — while the depth-cap branch itself (reached only with `depth > 10`)
does emit the bare synthetic message the claim describes. -/
theorem process_commits_split_name_error :
    config_valid cfg_small = true ∧
    split_day_commits env_long cfg_small "2024-01-01" [commit_a, commit_b] =
      .error .name_error_depth ∧
    process_commits env_long cfg_small "2024-01-01" [commit_a, commit_b] 0 =
      .error .name_error_depth ∧
    process_commits env_long cfg_small "2024-01-01" [commit_a, commit_b] 11 =
      .ok [{ date := "2024-01-01", commits := [commit_a, commit_b],
             summary := "Update 2024-01-01 (2 commits)", analysis := some () }] :=
  ⟨rfl, rfl, rfl, rfl⟩

/-! ## Claim C9 -/

/-- C9 (counterexample): with zero commits before filtering but a date
filter present, `prepare_squash_plan` fails with the invalid-date-range
error, not the no-commits error the claim requires for every
zero-commit input. -/
theorem prepare_empty_with_filter_not_no_commits :
    prepare_squash_plan env_short cfg_small (some "2024-01-01") none false
      ([] : List (String × List CommitInfo)) =
      .error (.invalid_date_range "No commits found between 2024-01-01 and HEAD") ∧
    is_no_commits_error (prepare_squash_plan env_short cfg_small (some "2024-01-01")
      none false ([] : List (String × List CommitInfo))) = false :=
  ⟨rfl, rfl⟩

/-- C9 (amended): `prepare_squash_plan` fails with the no-commits error
when there are zero commits and no date filter is given; when a date
filter is given and filtering yields zero date groups (including when
the input was already empty) it fails with the invalid-date-range error;
in both failure cases no plan is produced. -/
theorem prepare_error_classification {A : Type} (env : ToolEnv A)
    (cfg : GitSquashConfig) (start_date end_date : Option String) (combine : Bool)
    (commits_by_date : List (String × List CommitInfo)) :
    (start_date = none → end_date = none → commits_by_date = [] →
      prepare_squash_plan env cfg start_date end_date combine commits_by_date =
        .error (.no_commits "No commits found to squash")) ∧
    ((start_date.isSome ∨ end_date.isSome) →
      effective_groups start_date end_date commits_by_date = [] →
      prepare_squash_plan env cfg start_date end_date combine commits_by_date =
        .error (.invalid_date_range ("No commits found between " ++
          start_date.getD "beginning" ++ " and " ++ end_date.getD "HEAD"))) := by
  constructor
  · rintro rfl rfl rfl
    rfl
  · intro hor heff
    have h1 : (start_date.isSome || end_date.isSome) = true := by
      rcases hor with h | h <;> simp [h]
    simp [prepare_squash_plan, heff, h1]

/-- Witness for C9 at concrete inputs: the no-commits error on an empty
unfiltered input, and the invalid-date-range error on an empty filtered
input. -/
theorem prepare_error_classification_witness :
    prepare_squash_plan env_short cfg_small none none false
      ([] : List (String × List CommitInfo)) =
      .error (.no_commits "No commits found to squash") ∧
    prepare_squash_plan env_short cfg_small (some "2024-03-01") none false
      ([] : List (String × List CommitInfo)) =
      .error (.invalid_date_range ("No commits found between " ++
        (some "2024-03-01").getD "beginning" ++ " and " ++
        (none : Option String).getD "HEAD")) :=
  ⟨(prepare_error_classification env_short cfg_small none none false []).1 rfl rfl rfl,
   (prepare_error_classification env_short cfg_small (some "2024-03-01") none false
     []).2 (Or.inl rfl) rfl⟩

/-! ## Claim C1 -/

/-- When `_split_day_commits` succeeds, the items it returns carry
exactly the commits it was given. -/
theorem split_day_commits_flat {A : Type} (env : ToolEnv A) (cfg : GitSquashConfig)
    (date : String) (commits : List CommitInfo) (items : List (SquashPlanItem A))
    (h : split_day_commits env cfg date commits = .ok items) :
    items.flatMap (·.commits) = commits := by
  rw [split_day_commits] at h
  split at h
  · simp only [Except.ok.injEq] at h
    subst h
    simp
  · exact Except.noConfusion h

/-- When `_process_commits` succeeds, the concatenation of its items'
commit lists is exactly the input batch. -/
theorem process_commits_flat {A : Type} (env : ToolEnv A) (cfg : GitSquashConfig)
    (date : String) (commits : List CommitInfo) (depth : Nat)
    (items : List (SquashPlanItem A))
    (h : process_commits env cfg date commits depth = .ok items) :
    items.flatMap (·.commits) = commits := by
  rw [process_commits] at h
  split at h
  · simp only [Except.ok.injEq] at h
    subst h
    simp
  · split at h
    · simp only [Except.ok.injEq] at h
      subst h
      simp
    · dsimp only at h
      split at h
      · simp only [Except.ok.injEq] at h
        subst h
        simp
      · exact split_day_commits_flat env cfg date commits items h

/-- When the per-date loop succeeds, the concatenation of all items'
commit lists is the concatenation of the processed groups. -/
theorem process_groups_flat {A : Type} (env : ToolEnv A) (cfg : GitSquashConfig) :
    ∀ (gs : List (String × List CommitInfo)) (items : List (SquashPlanItem A)),
    process_groups env cfg gs = .ok items →
    items.flatMap (·.commits) = gs.flatMap (·.2) := by
  intro gs
  induction gs with
  | nil =>
    intro items h
    simp only [process_groups, Except.ok.injEq] at h
    subst h
    rfl
  | cons g rest ih =>
    intro items h
    rw [process_groups] at h
    cases hd : process_commits env cfg g.1 g.2 0 with
    | error e => rw [hd] at h; exact Except.noConfusion h
    | ok day_items =>
      rw [hd] at h
      cases hr : process_groups env cfg rest with
      | error e => rw [hr] at h; exact Except.noConfusion h
      | ok rest_items =>
        rw [hr] at h
        simp only [Except.ok.injEq] at h
        subst h
        rw [List.flatMap_append, process_commits_flat env cfg g.1 g.2 0 day_items hd,
          ih rest_items hr, List.flatMap_cons]

/-- Transitivity of the `datetime` comparison used when sorting. -/
theorem commit_le_trans (a b c : CommitInfo) :
    commit_le a b → commit_le b c → commit_le a c := by
  simp only [commit_le, decide_eq_true_eq]
  omega

/-- Totality of the `datetime` comparison used when sorting. -/
theorem commit_le_total (a b : CommitInfo) : commit_le a b || commit_le b a := by
  simp only [commit_le, Bool.or_eq_true, decide_eq_true_eq]
  omega

/-- C1: whenever `prepare_squash_plan` returns a plan, the concatenation
of the items' commit lists is a permutation of the filtered input commit
set (no commit appears twice, none is dropped) and is in non-decreasing
chronological order — for the non-combine path provided the date-sorted
input groups are themselves chronologically ordered, which the version
control port guarantees. -/
theorem prepare_plan_coverage {A : Type} (env : ToolEnv A) (cfg : GitSquashConfig)
    (start_date end_date : Option String) (combine : Bool)
    (commits_by_date : List (String × List CommitInfo)) (plan : SquashPlan A)
    (hok : prepare_squash_plan env cfg start_date end_date combine commits_by_date =
      .ok plan)
    (hord : combine = false →
      ((List.mergeSort (effective_groups start_date end_date commits_by_date)
        group_le).flatMap (·.2)).Pairwise (fun a b => a.datetime ≤ b.datetime)) :
    (plan.items.flatMap (·.commits)).Perm
      ((effective_groups start_date end_date commits_by_date).flatMap (·.2)) ∧
    (plan.items.flatMap (·.commits)).Pairwise
      (fun a b => a.datetime ≤ b.datetime) := by
  rw [prepare_squash_plan] at hok
  split at hok
  · exact Except.noConfusion hok
  · split at hok
    · exact Except.noConfusion hok
    · split at hok
      · -- combine path
        rename_i hcomb
        dsimp only at hok
        split at hok
        · exact Except.noConfusion hok
        · rename_i items hp
          simp only [Except.ok.injEq] at hok
          subst hok
          have hflat := process_commits_flat _ _ _ _ _ _ hp
          dsimp only
          rw [hflat]
          constructor
          · exact List.mergeSort_perm _ _
          · exact List.Pairwise.imp
              (by simp only [commit_le, decide_eq_true_eq]; exact fun h => h)
              (List.sorted_mergeSort commit_le_trans commit_le_total _)
      · -- per-day path
        rename_i hcomb
        dsimp only at hok
        split at hok
        · exact Except.noConfusion hok
        · rename_i items hp
          simp only [Except.ok.injEq] at hok
          subst hok
          have hflat := process_groups_flat _ _ _ _ hp
          dsimp only
          rw [hflat]
          have hcf : combine = false := by
            revert hcomb
            cases combine <;> simp
          constructor
          · exact List.Perm.flatMap_right _ (List.mergeSort_perm _ _)
          · exact hord hcf

/-- Witness for C1 on a concrete two-day history processed without
combining: the resulting plan covers exactly the input commits in
chronological order. -/
theorem prepare_plan_coverage_witness :
    prepare_squash_plan env_short cfg_small none none false cbd_w = .ok plan_prep ∧
    (plan_prep.items.flatMap (·.commits)).Perm
      ((effective_groups none none cbd_w).flatMap (·.2)) ∧
    (plan_prep.items.flatMap (·.commits)).Pairwise
      (fun a b => a.datetime ≤ b.datetime) := by
  have hmerge : List.mergeSort (effective_groups none none cbd_w) group_le = cbd_w := by
    rw [show effective_groups none none cbd_w = cbd_w from rfl]
    exact List.mergeSort_of_sorted (by decide)
  have hok : prepare_squash_plan env_short cfg_small none none false cbd_w =
      .ok plan_prep := by
    rw [prepare_squash_plan, hmerge]
    rfl
  refine ⟨hok, ?_⟩
  refine prepare_plan_coverage env_short cfg_small none none false cbd_w plan_prep hok ?_
  intro _
  rw [hmerge]
  decide

/-! ## Claim C5

The decimal rendering of the commit count is the one non-trivial
ingredient of the key string, so we first prove `Nat.repr` injective. -/

/-- The digit accumulator of `Nat.toDigitsCore` only prepends. -/
theorem toDigitsCore_shift (b : Nat) :
    ∀ (fuel n : Nat) (ds : List Char),
    Nat.toDigitsCore b fuel n ds = Nat.toDigitsCore b fuel n [] ++ ds := by
  intro fuel
  induction fuel with
  | zero => intro n ds; rfl
  | succ fuel ih =>
    intro n ds
    simp only [Nat.toDigitsCore]
    by_cases h : n / b = 0
    · simp [h]
    · simp only [h, if_false]
      rw [ih (n / b) (Nat.digitChar (n % b) :: ds), ih (n / b) [Nat.digitChar (n % b)]]
      simp

/-- Value of a decimal digit character produced by `Nat.digitChar`. -/
theorem digit_char_sub_48 : ∀ m, m < 10 → (Nat.digitChar m).toNat - 48 = m := by
  intro m h
  interval_cases m <;> rfl

/-- Decimal value of a digit string. -/
def val_of_digits (ds : List Char) : Nat :=
  ds.foldl (fun a c => a * 10 + (c.toNat - 48)) 0

/-- Appending one digit multiplies the value by ten and adds it. -/
theorem val_of_digits_append (l : List Char) (c : Char) :
    val_of_digits (l ++ [c]) = val_of_digits l * 10 + (c.toNat - 48) := by
  simp [val_of_digits, List.foldl_append]

/-- `Nat.toDigitsCore` base 10 is a faithful decimal rendering. -/
theorem val_toDigitsCore : ∀ (fuel n : Nat), n < fuel →
    val_of_digits (Nat.toDigitsCore 10 fuel n []) = n := by
  intro fuel
  induction fuel with
  | zero => intro n h; omega
  | succ fuel ih =>
    intro n h
    simp only [Nat.toDigitsCore]
    by_cases h0 : n / 10 = 0
    · have hlt : n < 10 := by omega
      have hmod : n % 10 = n := Nat.mod_eq_of_lt hlt
      simp [h0, val_of_digits, hmod, digit_char_sub_48 n hlt]
    · have hn : 0 < n := by
        rcases Nat.eq_zero_or_pos n with hz | hp
        · subst hz; simp at h0
        · exact hp
      have h10 : n / 10 < n := Nat.div_lt_self hn (by omega)
      simp only [h0, if_false]
      rw [toDigitsCore_shift 10 fuel (n / 10) [Nat.digitChar (n % 10)],
        val_of_digits_append, ih (n / 10) (by omega),
        digit_char_sub_48 (n % 10) (Nat.mod_lt n (by omega))]
      omega

/-- `Nat.repr` (and hence `toString` on `Nat`) is injective. -/
theorem nat_repr_injective {m n : Nat} (h : Nat.repr m = Nat.repr n) : m = n := by
  have hd : Nat.toDigitsCore 10 (m + 1) m [] = Nat.toDigitsCore 10 (n + 1) n [] :=
    congrArg String.data h
  calc m = val_of_digits (Nat.toDigitsCore 10 (m + 1) m []) :=
        (val_toDigitsCore (m + 1) m (Nat.lt_succ_self m)).symm
    _ = val_of_digits (Nat.toDigitsCore 10 (n + 1) n []) := by rw [hd]
    _ = n := val_toDigitsCore (n + 1) n (Nat.lt_succ_self n)

/-- The joined form of the summary key string. -/
theorem generate_summary_key_string_eq (d : String) (hs : List String)
    (dh ch : String) :
    generate_summary_key_string d hs dh ch =
      "summary" ++ "|" ++ d ++ "|" ++ String.intercalate "-" (hs.take 3) ++ "|" ++
      ("n" ++ toString hs.length) ++ "|" ++ py_take dh 8 ++ "|" ++ py_take ch 8 := rfl

/-- C5 (amended): summary key generation is deterministic and the key
depends on exactly the date, the first three commit hashes, the total
commit count, and the first eight characters of the diff and config
hashes — so any change confined to commit hashes after the first three
(count unchanged) or to hash characters past the eighth yields the
identical key, while adding a commit (changing the count with the first
three hashes and the other arguments unchanged) yields a different key
string. -/
theorem summary_key_characterization :
    (∀ (H : String → String) (d : String) (hs₁ hs₂ : List String)
        (dh₁ dh₂ ch₁ ch₂ : String),
      hs₁.take 3 = hs₂.take 3 → hs₁.length = hs₂.length →
      py_take dh₁ 8 = py_take dh₂ 8 → py_take ch₁ 8 = py_take ch₂ 8 →
      generate_summary_key H d hs₁ dh₁ ch₁ = generate_summary_key H d hs₂ dh₂ ch₂) ∧
    (∀ (d : String) (hs₁ hs₂ : List String) (dh ch : String),
      hs₁.take 3 = hs₂.take 3 → hs₁.length ≠ hs₂.length →
      generate_summary_key_string d hs₁ dh ch ≠
        generate_summary_key_string d hs₂ dh ch) := by
  constructor
  · intro H d hs₁ hs₂ dh₁ dh₂ ch₁ ch₂ h3 hlen hdh hch
    have hkey : generate_summary_key_string d hs₁ dh₁ ch₁ =
        generate_summary_key_string d hs₂ dh₂ ch₂ := by
      rw [generate_summary_key_string, generate_summary_key_string, h3, hlen, hdh, hch]
    rw [generate_summary_key, generate_summary_key, hkey]
  · intro d hs₁ hs₂ dh ch h3 hlen heq
    rw [generate_summary_key_string_eq, generate_summary_key_string_eq, h3] at heq
    have hdata := congrArg String.data heq
    simp only [String.data_append, List.append_assoc] at hdata
    have hc1 := List.append_cancel_left hdata
    have hc2 := List.append_cancel_left hc1
    have hc3 := List.append_cancel_left hc2
    have hc4 := List.append_cancel_left hc3
    have hc5 := List.append_cancel_left hc4
    have hc6 := List.append_cancel_left hc5
    have hc7 := List.append_cancel_left hc6
    have h8 : (toString hs₁.length).data = (toString hs₂.length).data :=
      List.append_cancel_right hc7
    exact hlen (nat_repr_injective (String.toList_inj.mp h8))

/-- C5 (counterexample): two different commit-hash lists — differing
only in the fourth hash — produce the identical summary key string, so
changing the commit-hash list does not always change the key. -/
theorem summary_key_tail_change_collision :
    (["aa11", "bb22", "cc33", "dd44"] : List String) ≠
      ["aa11", "bb22", "cc33", "ee55"] ∧
    generate_summary_key_string "2024-01-05" ["aa11", "bb22", "cc33", "dd44"]
        "d0d0d0d0" "c0c0c0c0" =
      generate_summary_key_string "2024-01-05" ["aa11", "bb22", "cc33", "ee55"]
        "d0d0d0d0" "c0c0c0c0" :=
  ⟨by decide, rfl⟩

/-- Witness for C5: the key is unchanged under a tail-hash change, and
adding a commit (count change) changes the key string. -/
theorem summary_key_characterization_witness :
    generate_summary_key id "2024-01-01" ["a1", "b2", "c3", "d4"] "deadbeef" "cafe0123" =
      generate_summary_key id "2024-01-01" ["a1", "b2", "c3", "e5"] "deadbeef"
        "cafe0123" ∧
    generate_summary_key_string "2024-01-01" ["a1", "b2", "c3", "d4"] "deadbeef"
        "cafe0123" ≠
      generate_summary_key_string "2024-01-01" ["a1", "b2", "c3", "d4", "e5"]
        "deadbeef" "cafe0123" :=
  ⟨summary_key_characterization.1 id "2024-01-01" _ _ _ _ _ _ rfl rfl rfl rfl,
   summary_key_characterization.2 "2024-01-01" _ _ _ _ rfl (by decide)⟩

/-! ## Claim C7 -/

/-- Length of a Python prefix slice. -/
theorem py_take_length (s : String) (n : Nat) :
    (py_take s n).length = min n s.length := by
  rw [py_take, String.length_mk, List.length_take]
  rfl

/-- The final truncation step of the subject processing respects the
limit whenever the limit is at least the ellipsis length. -/
theorem truncate_length_le (limit : Nat) (s : String) (h3 : 3 ≤ limit) :
    (if s.length > limit then py_slice_to s ((limit : Int) - 3) ++ "..."
     else s).length ≤ limit := by
  split
  · have hnn : (0 : Int) ≤ (limit : Int) - 3 := by omega
    rw [py_slice_to, if_pos hnn, String.length_append, py_take_length]
    have hd : ("..." : String).length = 3 := rfl
    rw [hd]
    omega
  · next hshort => omega

/-- The processed subject line never exceeds `subject_line_limit` when
the limit is at least 3 (the length of the ellipsis). -/
theorem format_subject_length_le (cfg : GitSquashConfig) (l0 : String)
    (hs : 3 ≤ cfg.subject_line_limit) :
    (format_subject cfg l0).length ≤ cfg.subject_line_limit := by
  rw [format_subject]
  split
  · next hempty =>
    rw [beq_iff_eq] at hempty
    rw [hempty]
    exact Nat.zero_le _
  · exact truncate_length_le cfg.subject_line_limit _ hs

/-- Every line emitted by the word-wrapping loop stays within `width`,
provided the accumulated line does and every remaining word fits on a
fresh continuation line. -/
theorem wrap_words_length_le (width : Nat) (cont : String) :
    ∀ (ws : List String) (current : String), current.length ≤ width →
    (∀ w ∈ ws, (cont ++ w).length ≤ width) →
    ∀ l ∈ wrap_words width cont current ws, l.length ≤ width := by
  intro ws
  induction ws with
  | nil =>
    intro current hc _ l hl
    rw [wrap_words] at hl
    split at hl
    · cases hl
    · rw [List.mem_singleton] at hl
      subst hl
      exact hc
  | cons w ws ih =>
    intro current hc hws l hl
    rw [wrap_words] at hl
    split at hl
    · next hfit =>
      exact ih _ hfit (fun w' hw' => hws w' (List.mem_cons_of_mem w hw')) l hl
    · rcases List.mem_cons.1 hl with rfl | hl'
      · exact hc
      · exact ih _ (hws w (List.mem_cons_self w ws))
          (fun w' hw' => hws w' (List.mem_cons_of_mem w hw')) l hl'

/-- Every line emitted for one logical line stays within `width`,
provided each word of the line (and of its bullet-stripped content) is
at least three characters shorter than `width`. -/
theorem wrap_line_length_le (width : Nat) (piece : String)
    (h1 : ∀ w ∈ py_words (py_strip piece), w.length + 3 ≤ width)
    (h2 : ∀ w ∈ py_words (py_strip (py_drop (py_strip piece) 2)),
      w.length + 3 ≤ width) :
    ∀ l ∈ wrap_line width "" piece, l.length ≤ width := by
  intro l hl
  rw [wrap_line] at hl
  split at hl
  · rw [List.mem_singleton] at hl
    subst hl
    simp
  · dsimp only at hl
    split at hl
    · split at hl
      · next hfit =>
        rw [List.mem_singleton] at hl
        subst hl
        exact hfit
      · split at hl
        · cases hl
        · next w ws hwords =>
          refine wrap_words_length_le width _ ws _ ?_ ?_ l hl
          · have hw : w ∈ py_words (py_strip (py_drop (py_strip piece) 2)) := by
              rw [hwords]
              exact List.mem_cons_self w ws
            have hb : (py_take (py_strip piece) 2).length ≤ 2 := by
              rw [py_take_length]
              omega
            have := h2 w hw
            simp only [String.length_append]
            have hsp : (" " : String).length = 1 := rfl
            have hemp : ("" : String).length = 0 := rfl
            omega
          · intro w' hw'
            have hmem : w' ∈ py_words (py_strip (py_drop (py_strip piece) 2)) := by
              rw [hwords]
              exact List.mem_cons_of_mem w hw'
            have := h2 w' hmem
            simp only [String.length_append]
            have hind : ("  " : String).length = 2 := rfl
            have hemp : ("" : String).length = 0 := rfl
            omega
    · split at hl
      · next hfit =>
        rw [List.mem_singleton] at hl
        subst hl
        exact hfit
      · split at hl
        · cases hl
        · next w ws hwords =>
          refine wrap_words_length_le width _ ws _ ?_ ?_ l hl
          · have hw : w ∈ py_words (py_strip piece) := by
              rw [hwords]
              exact List.mem_cons_self w ws
            have := h1 w hw
            simp only [String.length_append]
            have hemp : ("" : String).length = 0 := rfl
            omega
          · intro w' hw'
            have hmem : w' ∈ py_words (py_strip piece) := by
              rw [hwords]
              exact List.mem_cons_of_mem w hw'
            have := h1 w' hmem
            simp only [String.length_append]
            have hemp : ("" : String).length = 0 := rfl
            omega

/-- The trailing-blank cleanup returns a prefix of its input. -/
theorem drop_trailing_blanks_isPrefixOf (l : List String) :
    drop_trailing_blanks l <+: l := by
  rw [drop_trailing_blanks]
  have h := List.dropWhile_suffix (l := l.reverse) fun s => s == ""
  have h2 := List.reverse_prefix.2 h
  simpa using h2

/-- A prefix relation is preserved by dropping the heads. -/
theorem tail_isPrefixOf_tail {α : Type} {l₁ l₂ : List α} (h : l₁ <+: l₂) :
    l₁.tail <+: l₂.tail := by
  rcases h with ⟨t, rfl⟩
  cases l₁ with
  | nil => exact List.nil_prefix
  | cons a l => exact ⟨t, rfl⟩

/-- A non-empty prefix starts with the same element. -/
theorem headI_eq_of_isPrefixOf {l₁ l₂ : List String} (h : l₁ <+: l₂) (hne : l₁ ≠ []) :
    l₁.headI = l₂.headI := by
  rcases h with ⟨t, rfl⟩
  cases l₁ with
  | nil => exact absurd rfl hne
  | cons a l => rfl

/-- After the cleanup, the first output line is still the subject (or
the whole output is empty). -/
theorem drop_trailing_blanks_head_bound (subject : String) (fb : List String)
    (n : Nat) (hsubj : subject.length ≤ n) :
    (drop_trailing_blanks (subject :: "" :: fb)).headI.length ≤ n := by
  cases hres : drop_trailing_blanks (subject :: "" :: fb) with
  | nil => simp
  | cons x xs =>
    have hpre := drop_trailing_blanks_isPrefixOf (subject :: "" :: fb)
    rw [hres] at hpre
    have hx : x = subject := headI_eq_of_isPrefixOf hpre (by simp)
    simpa [hx] using hsubj

/-- After the cleanup, every output line after the first comes from the
blank separator or the wrapped body. -/
theorem drop_trailing_blanks_tail_bound (subject : String) (fb : List String)
    (width : Nat) (hfb : ∀ l ∈ fb, l.length ≤ width) :
    ∀ l ∈ (drop_trailing_blanks (subject :: "" :: fb)).tail, l.length ≤ width := by
  intro l hl
  have hpre := tail_isPrefixOf_tail (drop_trailing_blanks_isPrefixOf (subject :: "" :: fb))
  have hmem : l ∈ ("" :: fb) := hpre.subset hl
  rcases List.mem_cons.1 hmem with rfl | hfb'
  · simp
  · exact hfb l hfb'

/-- Every line of the formatted body stays within the body width. -/
theorem formatted_body_length_le (width : Nat) (body_lines all_lines : List String)
    (hsub : body_lines ⊆ all_lines)
    (hw : ∀ line ∈ all_lines, ∀ piece ∈ py_split_lines line,
      (∀ w ∈ py_words (py_strip piece), w.length + 3 ≤ width) ∧
      (∀ w ∈ py_words (py_strip (py_drop (py_strip piece) 2)),
        w.length + 3 ≤ width)) :
    ∀ l ∈ body_lines.flatMap (fun line =>
        if py_strip line == "" then [""] else wrap_text line width ""),
      l.length ≤ width := by
  intro l hl
  rcases List.mem_flatMap.1 hl with ⟨line, hline, hin⟩
  by_cases hb : py_strip line == ""
  · rw [if_pos hb, List.mem_singleton] at hin
    subst hin
    simp
  · rw [if_neg hb, wrap_text] at hin
    rcases List.mem_flatMap.1 hin with ⟨piece, hpiece, hpl⟩
    exact wrap_line_length_le width piece (hw line (hsub hline) piece hpiece).1
      (hw line (hsub hline) piece hpiece).2 l hpl

/-- C7 (amended): every formatted message has its subject line within
`subject_line_limit` and every body line within `body_line_width`,
provided the limit is at least 3 (so the ellipsis replacement cannot
overshoot) and every whitespace-separated word of the message (and of
the bullet-stripped content of bullet lines) is at least three
characters shorter than `body_line_width` (word-wrap never breaks
mid-word, so a longer word necessarily overflows its line). -/
theorem format_length_invariant (cfg : GitSquashConfig) (raw : String)
    (hne : py_split_lines raw ≠ [])
    (hs : 3 ≤ cfg.subject_line_limit)
    (hw : ∀ line ∈ py_split_lines raw, ∀ piece ∈ py_split_lines line,
      (∀ w ∈ py_words (py_strip piece), w.length + 3 ≤ cfg.body_line_width) ∧
      (∀ w ∈ py_words (py_strip (py_drop (py_strip piece) 2)),
        w.length + 3 ≤ cfg.body_line_width)) :
    (format_commit_message_lines cfg raw).headI.length ≤ cfg.subject_line_limit ∧
    ∀ l ∈ (format_commit_message_lines cfg raw).tail,
      l.length ≤ cfg.body_line_width := by
  rw [format_commit_message_lines]
  cases hsplit : py_split_lines raw with
  | nil => exact absurd hsplit hne
  | cons l0 rest =>
    rw [hsplit] at hw
    dsimp only
    split
    · constructor
      · exact format_subject_length_le cfg l0 hs
      · intro l hl
        cases hl
    · constructor
      · exact drop_trailing_blanks_head_bound _ _ _ (format_subject_length_le cfg l0 hs)
      · refine drop_trailing_blanks_tail_bound _ _ _ ?_
        refine formatted_body_length_le cfg.body_line_width _ (l0 :: rest) ?_ hw
        split
        · exact List.drop_subset 2 (l0 :: rest)
        · exact List.drop_subset 1 (l0 :: rest)

/-- C7 (counterexample): with a valid configuration of body width 5, a
message whose body holds the single 8-character word `abcdefgh` is
formatted with a body line of length 8 — word-wrap never breaks
mid-word, so the wrapped-line length bound of the claim fails. -/
theorem format_long_word_exceeds_width :
    config_valid cfg_narrow = true ∧
    ((format_commit_message_lines cfg_narrow "Fix\n\nabcdefgh").any fun l =>
      cfg_narrow.body_line_width < l.length) = true :=
  ⟨rfl, rfl⟩

/-- Witness for C7 on a concrete short message within all hypotheses. -/
theorem format_length_invariant_witness :
    (format_commit_message_lines cfg_narrow "ok\n\nab cd").headI.length ≤
      cfg_narrow.subject_line_limit ∧
    ∀ l ∈ (format_commit_message_lines cfg_narrow "ok\n\nab cd").tail,
      l.length ≤ cfg_narrow.body_line_width :=
  format_length_invariant cfg_narrow "ok\n\nab cd" (by decide) (by decide) (by decide)

/-! ## Claim C8 -/

/-- Prepending the empty string is the identity. -/
theorem str_nil_append (s : String) : "" ++ s = s := rfl

/-- A `flatMap` whose function yields singletons is a `map`. -/
theorem flatMap_eq_map_of_forall {α β : Type} (f : α → List β) (g : α → β) :
    ∀ l : List α, (∀ x ∈ l, f x = [g x]) → l.flatMap f = l.map g := by
  intro l
  induction l with
  | nil => intro _; rfl
  | cons a t ih =>
    intro h
    rw [List.flatMap_cons, List.map_cons, h a (List.mem_cons_self a t),
      ih fun x hx => h x (List.mem_cons_of_mem a hx)]
    rfl

/-- The trailing-blank cleanup is the identity when the last line is not
blank. -/
theorem drop_trailing_blanks_eq_self {L : List String}
    (h : ∀ x, L.getLast? = some x → x ≠ "") : drop_trailing_blanks L = L := by
  rw [drop_trailing_blanks]
  cases hrev : L.reverse with
  | nil =>
    rw [List.reverse_eq_nil_iff.1 hrev]
    rfl
  | cons x t =>
    have hx : L.getLast? = some x := by
      rw [← List.head?_reverse, hrev]
      rfl
    have hxne := h x hx
    rw [List.dropWhile_cons]
    rw [if_neg (by simp [hxne])]
    rw [← hrev, List.reverse_reverse]

/-- C8 (counterexample): a raw message of exactly two lines — a subject
directly followed by one non-empty body line — is formatted as the
subject alone: the body is dropped, not preserved. -/
theorem format_two_line_drops_body :
    format_commit_message default_config "Do it\nImportant body" = "Do it" ∧
    (py_split_lines "Do it\nImportant body").drop 1 = ["Important body"] :=
  ⟨rfl, rfl⟩

/-- C8 (amended): `format_commit_message` splits the raw message into
subject (first line) and body only when the message has at least three
lines; with fewer than three lines the subject alone is returned (so a
two-line message loses its body line).  With at least three lines, the
body is the remaining lines after dropping exactly one blank separator
line if the second line is blank; dropping that one blank separator does
not change the output; and a body of non-blank, non-bullet lines that
fit the width is preserved (per-line stripped) after the subject and one
blank line, with no trailing blank line. -/
theorem format_body_split_rule :
    (∀ (cfg : GitSquashConfig) (raw l0 : String) (rest : List String),
      py_split_lines raw = l0 :: rest → (l0 :: rest).length < 3 →
      format_commit_message_lines cfg raw = [format_subject cfg l0]) ∧
    (∀ (cfg : GitSquashConfig) (raw₁ raw₂ s : String) (body : List String),
      py_split_lines raw₁ = s :: "" :: body →
      py_split_lines raw₂ = s :: body →
      2 ≤ body.length → py_strip body.headI ≠ "" →
      format_commit_message cfg raw₁ = format_commit_message cfg raw₂) ∧
    (∀ (cfg : GitSquashConfig) (raw s : String) (body : List String),
      py_split_lines raw = s :: "" :: body → body ≠ [] →
      (∀ l ∈ body, py_strip l ≠ "" ∧
        (py_strip l).length ≤ cfg.body_line_width ∧
        (py_startswith (py_strip l) "- " || py_startswith (py_strip l) "* " ||
          py_startswith (py_strip l) "• ") = false ∧
        py_split_lines l = [l]) →
      format_commit_message_lines cfg raw =
        format_subject cfg s :: "" :: body.map py_strip) := by
  refine ⟨?_, ?_, ?_⟩
  · intro cfg raw l0 rest hsplit hlen
    rw [format_commit_message_lines, hsplit]
    dsimp only
    rw [if_pos hlen]
  · intro cfg raw₁ raw₂ s body hs1 hs2 hlen hne
    rcases body with _ | ⟨b0, brest⟩
    · simp at hlen
    have hb0 : py_strip b0 ≠ "" := hne
    rw [format_commit_message, format_commit_message]
    congr 1
    rw [format_commit_message_lines, format_commit_message_lines, hs1, hs2]
    dsimp only
    have h1 : ¬ ((s :: "" :: b0 :: brest).length < 3) := by
      simp [List.length_cons]
    have h2 : ¬ ((s :: b0 :: brest).length < 3) := by
      simp only [List.length_cons, List.length_cons] at hlen ⊢
      omega
    rw [if_neg h1, if_neg h2]
    have hc1 : (decide ((s :: "" :: b0 :: brest).length > 2) &&
        (py_strip ((s :: "" :: b0 :: brest).getD 1 "") == "")) = true := by
      simp [List.length_cons]
      rfl
    have hc2 : (decide ((s :: b0 :: brest).length > 2) &&
        (py_strip ((s :: b0 :: brest).getD 1 "") == "")) = false := by
      simp only [List.getD_cons_succ, List.getD_cons_zero, Bool.and_eq_false_iff,
        decide_eq_false_iff_not, beq_eq_false_iff_ne, ne_eq]
      right
      exact hb0
    rw [if_pos hc1, if_neg (by rw [hc2]; simp)]
    rfl
  · intro cfg raw s body hsplit hbody hlines
    rw [format_commit_message_lines, hsplit]
    dsimp only
    rcases body with _ | ⟨b0, brest⟩
    · exact absurd rfl hbody
    have h1 : ¬ ((s :: "" :: b0 :: brest).length < 3) := by
      simp [List.length_cons]
    rw [if_neg h1]
    have hc1 : (decide ((s :: "" :: b0 :: brest).length > 2) &&
        (py_strip ((s :: "" :: b0 :: brest).getD 1 "") == "")) = true := by
      simp [List.length_cons]
      rfl
    rw [if_pos hc1]
    have hdrop : (s :: "" :: b0 :: brest).drop 2 = b0 :: brest := rfl
    rw [hdrop]
    have hflat : (b0 :: brest).flatMap (fun line =>
        if py_strip line == "" then [""]
        else wrap_text line cfg.body_line_width "") = (b0 :: brest).map py_strip := by
      refine flatMap_eq_map_of_forall _ _ _ ?_
      intro l hl
      obtain ⟨hne, hwid, hbul, hone⟩ := hlines l hl
      rw [if_neg (by simp [hne])]
      rw [wrap_text, hone, List.flatMap_singleton, wrap_line]
      rw [if_neg (by simp [hne])]
      dsimp only
      rw [if_neg (by simp [hbul])]
      rw [str_nil_append]
      rw [if_pos hwid]
    rw [hflat]
    refine drop_trailing_blanks_eq_self ?_
    intro x hx
    rw [List.getLast?_cons_cons] at hx
    simp only [List.map_cons] at hx
    rw [List.getLast?_cons_cons] at hx
    have hmem := List.mem_of_getLast?_eq_some hx
    have hx2 : x ∈ (b0 :: brest).map py_strip := by
      simpa using hmem
    rcases List.mem_map.1 hx2 with ⟨y, hy, rfl⟩
    exact (hlines y hy).1

/-- Witness for C8 at concrete inputs: a two-line message collapses to
its subject, the single blank separator is dropped without changing the
output, and a simple body is preserved stripped after the subject and a
blank line. -/
theorem format_body_split_rule_witness :
    format_commit_message_lines cfg_narrow "hi\nthere" =
      [format_subject cfg_narrow "hi"] ∧
    format_commit_message cfg_narrow "hi\n\nab\ncd" =
      format_commit_message cfg_narrow "hi\nab\ncd" ∧
    format_commit_message_lines cfg_narrow "hi\n\nab\ncd" =
      format_subject cfg_narrow "hi" :: "" :: ["ab", "cd"].map py_strip :=
  ⟨format_body_split_rule.1 cfg_narrow "hi\nthere" "hi" ["there"] rfl (by decide),
   format_body_split_rule.2.1 cfg_narrow "hi\n\nab\ncd" "hi\nab\ncd" "hi" ["ab", "cd"]
     rfl rfl (by decide) (by decide),
   format_body_split_rule.2.2 cfg_narrow "hi\n\nab\ncd" "hi" ["ab", "cd"] rfl
     (by decide) (by decide)⟩

end GitSquash
